import Mathlib

/-!
Shallow embedding of the mongodb-medical-pipeline ETL (src/app/etl.py).

Python strings are modelled as Lean `String`s; the string primitives the
source relies on (strip, split, title, upper, basename) are implemented
here over `String.data` so every definition is executable and
kernel-reducible.  Python `None` / missing values are `Option`; rows
(pandas `row.to_dict()` after `df.where(pd.notnull(df), None)`) are
association lists from column name to `Option String` (cell values are
modelled as their string rendering; `df.where` has already replaced NaN
by `None`).  Document trees (the canonical record and the documents in
the store) are the inductive `Value` below; Python `None` is `vNull`,
the pandas NaT sentinel (a datetime subclass, distinct from `None`) is
`vNaT`, and `datetime.utcnow()` timestamps are an opaque tick `vTime`.
-/

/-- Characters split on by `re.split(r"[|,;]", s)` in the source. -/
def isDelim (c : Char) : Bool := c = '|' || c = ',' || c = ';'

/-- Split a character list on a character class, keeping empty pieces,
exactly as `re.split` with a single-character class does. -/
def splitChars (p : Char → Bool) : List Char → List (List Char)
  | [] => [[]]
  | c :: cs =>
    let r := splitChars p cs
    if p c then [] :: r
    else
      match r with
      | [] => [[c]]
      | t :: ts => (c :: t) :: ts

/-- Python `str.strip()` from the left: drop leading whitespace. -/
def dropLeftWs (l : List Char) : List Char := l.dropWhile Char.isWhitespace

/-- Python `str.strip()`: drop leading and trailing whitespace. -/
def trimChars (l : List Char) : List Char :=
  ((dropLeftWs l).reverse.dropWhile Char.isWhitespace).reverse

/-- Python `s.strip()` on strings. -/
def pyStrip (s : String) : String := String.mk (trimChars s.data)

/-- Python `s.split()` with no argument: split on whitespace runs,
dropping empty pieces. -/
def pySplitWs (s : String) : List String :=
  ((splitChars Char.isWhitespace s.data).filter (fun l => l ≠ [])).map String.mk

/-- Python `re.split(r"[|,;]", s)`: split on the three delimiters,
keeping empty pieces. -/
def pySplitDelims (s : String) : List String :=
  (splitChars isDelim s.data).map String.mk

/-- Title-casing of a character list in the style of Python `str.title()`
(ASCII model): a letter is upper-cased when the previous character is not
a letter, lower-cased otherwise.  `prev` records whether the previous
character was a letter. -/
def titleChars : Bool → List Char → List Char
  | _, [] => []
  | prev, c :: cs =>
    if c.isAlpha then
      (if prev then c.toLower else c.toUpper) :: titleChars true cs
    else
      c :: titleChars false cs

/-- Python `s.title()` (ASCII model). -/
def pyTitle (s : String) : String := String.mk (titleChars false s.data)

/-- Python `s.upper()` (ASCII model). -/
def pyUpper (s : String) : String := String.mk (s.data.map Char.toUpper)

/-- Python `" ".join(parts)`. -/
def joinSpace : List String → String
  | [] => ""
  | [s] => s
  | s :: rest => s ++ " " ++ joinSpace rest

/-- Keep everything after the last `/`, as `os.path.basename` does on
POSIX paths. -/
def pyBasename (s : String) : String :=
  String.mk (((splitChars (fun c => c = '/') s.data).getLastD []))

/-- Document-tree values: the shapes the ETL builds and stores.  `vNull`
is Python `None`; `vNaT` is the pandas NaT sentinel returned by
`pd.to_datetime(..., errors="coerce")` on failure (a datetime subclass
that is *not* equal to `None`); `vTime` is an opaque
`datetime.utcnow()` tick. -/
inductive Value where
  | vNull : Value
  | vStr (s : String) : Value
  | vInt (n : Int) : Value
  | vDate (y m d : Nat) : Value
  | vNaT : Value
  | vTime (t : Nat) : Value
  | vList (xs : List Value) : Value
  | vDict (kvs : List (String × Value)) : Value
deriving Repr

mutual
/-- Structural boolean equality on document values (the derive handler
does not support this nested inductive, so it is written out). -/
def beqValue : Value → Value → Bool
  | .vNull, .vNull => true
  | .vStr s, .vStr t => s == t
  | .vInt m, .vInt n => m == n
  | .vDate y m d, .vDate y' m' d' => y == y' && m == m' && d == d'
  | .vNaT, .vNaT => true
  | .vTime t, .vTime t' => t == t'
  | .vList xs, .vList ys => beqListV xs ys
  | .vDict kvs, .vDict kvs' => beqKVs kvs kvs'
  | _, _ => false

def beqListV : List Value → List Value → Bool
  | [], [] => true
  | x :: xs, y :: ys => beqValue x y && beqListV xs ys
  | _, _ => false

def beqKVs : List (String × Value) → List (String × Value) → Bool
  | [], [] => true
  | (k, v) :: r, (k', v') :: r' => k == k' && beqValue v v' && beqKVs r r'
  | _, _ => false
end

mutual
theorem beqValue_refl : (a : Value) → beqValue a a = true
  | .vNull => rfl
  | .vStr s => by simp [beqValue]
  | .vInt n => by simp [beqValue]
  | .vDate y m d => by simp [beqValue]
  | .vNaT => rfl
  | .vTime t => by simp [beqValue]
  | .vList xs => by rw [beqValue]; exact beqListV_refl xs
  | .vDict kvs => by rw [beqValue]; exact beqKVs_refl kvs

theorem beqListV_refl : (xs : List Value) → beqListV xs xs = true
  | [] => rfl
  | x :: xs => by
    rw [beqListV, beqValue_refl x, beqListV_refl xs]; rfl

theorem beqKVs_refl : (kvs : List (String × Value)) → beqKVs kvs kvs = true
  | [] => rfl
  | (k, v) :: r => by
    rw [beqKVs, beqValue_refl v, beqKVs_refl r]
    simp
end

mutual
theorem eq_of_beqValue : (a b : Value) → beqValue a b = true → a = b
  | .vNull, .vNull, _ => rfl
  | .vStr s, .vStr t, h => by
    have h' : s = t := by simpa [beqValue] using h
    rw [h']
  | .vInt m, .vInt n, h => by rw [show m = n by simpa [beqValue] using h]
  | .vDate y m d, .vDate y' m' d', h => by
    have h' : (y = y' ∧ m = m') ∧ d = d' := by simpa [beqValue] using h
    obtain ⟨⟨h1, h2⟩, h3⟩ := h'
    rw [h1, h2, h3]
  | .vNaT, .vNaT, _ => rfl
  | .vTime t, .vTime t', h => by rw [show t = t' by simpa [beqValue] using h]
  | .vList xs, .vList ys, h => by
    rw [beqValue] at h
    rw [eq_of_beqListV xs ys h]
  | .vDict kvs, .vDict kvs', h => by
    rw [beqValue] at h
    rw [eq_of_beqKVs kvs kvs' h]

theorem eq_of_beqListV : (xs ys : List Value) → beqListV xs ys = true → xs = ys
  | [], [], _ => rfl
  | x :: xs, y :: ys, h => by
    rw [beqListV] at h
    have h2 : beqValue x y = true ∧ beqListV xs ys = true := by simpa using h
    rw [eq_of_beqValue x y h2.1, eq_of_beqListV xs ys h2.2]

theorem eq_of_beqKVs : (r r' : List (String × Value)) → beqKVs r r' = true → r = r'
  | [], [], _ => rfl
  | (k, v) :: r, (k', v') :: r', h => by
    rw [beqKVs] at h
    have h2 : (k = k' ∧ beqValue v v' = true) ∧ beqKVs r r' = true := by simpa using h
    obtain ⟨⟨hk, hv⟩, hr⟩ := h2
    rw [hk, eq_of_beqValue v v' hv, eq_of_beqKVs r r' hr]
end

instance : DecidableEq Value := fun a b =>
  if h : beqValue a b = true then isTrue (eq_of_beqValue a b h)
  else isFalse (fun he => h (he ▸ beqValue_refl a))

/-- Python `v in [None, [], {}]` on document values: `None`, the empty
list and the empty dict (NaT is none of these: `NaT == None` is false). -/
def isEmptyish : Value → Bool
  | .vNull => true
  | .vList [] => true
  | .vDict [] => true
  | _ => false

mutual
/-- The source's `prune`: on a dict, keep the entries whose value is not
in `[None, [], {}]` *before* pruning it, then prune each kept value; on a
list, the same; leaves are returned unchanged.  (The membership test runs
on the un-pruned child — this is the exact source behaviour.) -/
def prune : Value → Value
  | .vDict kvs => .vDict (pruneKVs kvs)
  | .vList xs => .vList (pruneList xs)
  | v => v

def pruneList : List Value → List Value
  | [] => []
  | x :: xs => if isEmptyish x then pruneList xs else prune x :: pruneList xs

def pruneKVs : List (String × Value) → List (String × Value)
  | [] => []
  | (k, v) :: kvs =>
    if isEmptyish v then pruneKVs kvs else (k, prune v) :: pruneKVs kvs
end

/-- First binding of a key in an association list of document fields. -/
def lookupKV (kvs : List (String × Value)) (k : String) : Option Value :=
  match kvs with
  | [] => none
  | (k', v) :: rest => if k' = k then some v else lookupKV rest k

/-- Top-level field of a document (`none` on non-dicts and missing keys). -/
def getField (v : Value) (k : String) : Option Value :=
  match v with
  | .vDict kvs => lookupKV kvs k
  | _ => none

/-- Field of a field: `getField₂ v k1 k2` reads `v[k1][k2]`. -/
def getField2 (v : Value) (k1 k2 : String) : Option Value :=
  match getField v k1 with
  | some w => getField w k2
  | none => none

mutual
/-- Does the tree contain a `vNull` anywhere (the value itself included)? -/
def hasNull : Value → Bool
  | .vNull => true
  | .vList xs => hasNullList xs
  | .vDict kvs => hasNullKVs kvs
  | _ => false

def hasNullList : List Value → Bool
  | [] => false
  | x :: xs => hasNull x || hasNullList xs

def hasNullKVs : List (String × Value) → Bool
  | [] => false
  | (_, v) :: kvs => hasNull v || hasNullKVs kvs
end

mutual
/-- Does the tree contain an empty dict anywhere (the value itself included)? -/
def hasEmptyDict : Value → Bool
  | .vDict [] => true
  | .vDict kvs => hasEmptyDictKVs kvs
  | .vList xs => hasEmptyDictList xs
  | _ => false

def hasEmptyDictList : List Value → Bool
  | [] => false
  | x :: xs => hasEmptyDict x || hasEmptyDictList xs

def hasEmptyDictKVs : List (String × Value) → Bool
  | [] => false
  | (_, v) :: kvs => hasEmptyDict v || hasEmptyDictKVs kvs
end

/-! Rows and alias resolution (the field mapper). -/

/-- A parsed row: `row.to_dict()` after `df.where(pd.notnull(df), None)`.
Cell values are `none` for missing columns and NaN cells, otherwise the
string rendering of the cell. -/
def Row : Type := List (String × Option String)

/-- Python `row.get(k)`: `none` both when the key is missing and when the
stored value is `None`. -/
def rowGet (r : Row) (k : String) : Option String :=
  match r with
  | [] => none
  | (k', v) :: rest => if k' = k then v else rowGet rest k

/-- Python truthiness of a cell value: `None` and `""` are falsy. -/
def truthy : Option String → Bool
  | none => false
  | some s => s != ""

/-- Python `a or b` on cell values: `a` when truthy, otherwise `b`. -/
def pyOr (a b : Option String) : Option String :=
  if truthy a then a else b

/-- An alias chain `row.get(k1) or row.get(k2) or ... or row.get(kn)`,
exactly as the source writes it: the last `row.get` is returned as-is
when every earlier value is falsy. -/
def getChain (r : Row) : List String → Option String
  | [] => none
  | [k] => rowGet r k
  | k :: ks => pyOr (rowGet r k) (getChain r ks)

/-- The first alias whose value is non-empty (the claim's reading of the
chain); `none` when no alias yields a non-empty value. -/
def firstNonEmpty (r : Row) : List String → Option String
  | [] => none
  | k :: ks =>
    match rowGet r k with
    | some v => if v = "" then firstNonEmpty r ks else some v
    | none => firstNonEmpty r ks

/-! Value normalizers. -/

/-- Numeric value of a digit list, most significant first. -/
def digitsToNat (ds : List Char) : Nat :=
  ds.foldl (fun a c => a * 10 + (c.toNat - 48)) 0

/-- The optional leading sign of a float literal: the boolean is true
for a negative sign; the remainder follows. -/
def parseSign : List Char → Bool × List Char
  | '+' :: r => (false, r)
  | '-' :: r => (true, r)
  | r => (false, r)

/-- Does an unsigned character list have the shape of a plain decimal
float literal: digits, digits-dot-digits, digits-dot, or dot-digits? -/
def decimalShape (l : List Char) : Bool :=
  match l.dropWhile Char.isDigit with
  | [] => !(l.takeWhile Char.isDigit).isEmpty
  | '.' :: fr => (!(l.takeWhile Char.isDigit).isEmpty || !fr.isEmpty) && fr.all Char.isDigit
  | _ => false

/-- Truncating float coercion `int(float(v))` of the source's
`to_int_safe`: optional surrounding whitespace, optional sign, then
plain decimal notation (digits, a dot and digits, or both).  Exponent
notation, digit underscores and inf/nan are outside the model (`int` on
inf/nan raises, which the source maps to `None` anyway).  `int`
truncates toward zero, so the value is the sign applied to the integer
part and the fractional digits are simply dropped. -/
def pyFloatTruncInt (s : String) : Option Int :=
  let ps := parseSign (trimChars s.data)
  if decimalShape ps.2 then
    some (if ps.1 then -(digitsToNat (ps.2.takeWhile Char.isDigit) : Int)
          else (digitsToNat (ps.2.takeWhile Char.isDigit) : Int))
  else none

/-- The source's `to_int_safe`: `None`/NaN and `""` give `None`;
otherwise `int(float(v))`, with any parse failure giving `None`. -/
def to_int_safe (v : Option String) : Option Int :=
  match v with
  | none => none
  | some s => if s = "" then none else pyFloatTruncInt s

/-- The source's `_split_name`.  Returns `none` where the Python code
raises: on a whitespace-only full name, `split()` yields no tokens and
`parts[-1]` is an `IndexError`. -/
def splitName (fullname : Option String) : Option (Option String × Option String) :=
  match fullname with
  | none => some (none, none)
  | some s =>
    if s = "" then some (none, none)
    else
      match pySplitWs (pyStrip s) with
      | [] => none
      | [p] => some (some (pyTitle p), none)
      | p1 :: p2 :: rest =>
        some (some (pyTitle (joinSpace (List.dropLast (p1 :: p2 :: rest)))),
              some (pyTitle (List.getLastD (p1 :: p2 :: rest) "")))

/-! Date parsing. -/

/-- Length of a month, with the Gregorian leap-year rule `datetime` uses. -/
def daysInMonth (y m : Nat) : Nat :=
  if m = 2 then
    (if (y % 4 = 0 && y % 100 != 0) || y % 400 = 0 then 29 else 28)
  else if m = 4 || m = 6 || m = 9 || m = 11 then 30
  else 31

/-- Is (y, m, d) a date `datetime(y, m, d)` accepts? -/
def validYMD (y m d : Nat) : Bool :=
  1 ≤ y && y ≤ 9999 && 1 ≤ m && m ≤ 12 && 1 ≤ d && d ≤ daysInMonth y m

/-- Non-empty and all decimal digits. -/
def allDigits (l : List Char) : Bool := !l.isEmpty && l.all Char.isDigit

/-- Year/month/day fields of one `strptime` attempt: `%Y` is exactly
four digits, `%m` and `%d` one or two, and the values must form a valid
date (otherwise `datetime` raises and the format is rejected). -/
def parseYMDparts (ys ms ds : List Char) : Option (Nat × Nat × Nat) :=
  if allDigits ys && ys.length = 4 && allDigits ms && ms.length ≤ 2
      && allDigits ds && ds.length ≤ 2 then
    let y := digitsToNat ys
    let m := digitsToNat ms
    let d := digitsToNat ds
    if validYMD y m d then some (y, m, d) else none
  else none

/-- Split into exactly three fields on a literal separator, as a
three-field `strptime` format requires (anything else fails). -/
def strptimeSplit (sep : Char) (s : String) : Option (List Char × List Char × List Char) :=
  match splitChars (fun c => c = sep) s.data with
  | [a, b, c] => some (a, b, c)
  | _ => none

/-- `datetime.strptime(s, "%Y-%m-%d")`. -/
def strptimeYMDdash (s : String) : Option (Nat × Nat × Nat) :=
  match strptimeSplit '-' s with
  | some (a, b, c) => parseYMDparts a b c
  | none => none

/-- `datetime.strptime(s, "%d/%m/%Y")`. -/
def strptimeDMYslash (s : String) : Option (Nat × Nat × Nat) :=
  match strptimeSplit '/' s with
  | some (a, b, c) => parseYMDparts c b a
  | none => none

/-- `datetime.strptime(s, "%m/%d/%Y")`. -/
def strptimeMDYslash (s : String) : Option (Nat × Nat × Nat) :=
  match strptimeSplit '/' s with
  | some (a, b, c) => parseYMDparts c a b
  | none => none

/-- `datetime.strptime(s, "%Y/%m/%d")`. -/
def strptimeYMDslash (s : String) : Option (Nat × Nat × Nat) :=
  match strptimeSplit '/' s with
  | some (a, b, c) => parseYMDparts a b c
  | none => none

/-- Modelled external library: `pd.to_datetime(x, errors="coerce").to_pydatetime()`.
The real function is the permissive pandas/dateutil parser; the model
accepts compact `YYYYMMDD` digit strings and ISO dashes (enough for the
claims, which only exercise the success/failure split of this fallback)
and — the behaviour the claims turn on — returns the NaT sentinel, not
`None`, when it cannot parse: with `errors="coerce"` nothing is raised,
so the source's `except` branch that would return `None` never runs. -/
def pdToDatetimeCoerce (s : String) : Value :=
  let l := trimChars s.data
  if allDigits l && l.length = 8 then
    let y := digitsToNat (l.take 4)
    let m := digitsToNat ((l.drop 4).take 2)
    let d := digitsToNat (l.drop 6)
    if validYMD y m d then .vDate y m d else .vNaT
  else
    match strptimeYMDdash (String.mk l) with
    | some (y, m, d) => .vDate y m d
    | none => .vNaT

/-- The source's `parse_date`: `None`/blank gives `None`; then the four
fixed formats in source order, first success winning; then the
permissive fallback, whose failure value is NaT. -/
def parse_date (x : Option String) : Value :=
  match x with
  | none => .vNull
  | some s =>
    if pyStrip s = "" then .vNull
    else
      match strptimeYMDdash s with
      | some (y, m, d) => .vDate y m d
      | none =>
        match strptimeDMYslash s with
        | some (y, m, d) => .vDate y m d
        | none =>
          match strptimeMDYslash s with
          | some (y, m, d) => .vDate y m d
          | none =>
            match strptimeYMDslash s with
            | some (y, m, d) => .vDate y m d
            | none => pdToDatetimeCoerce s

/-! Medication parsing. -/

/-- Characters the name group `[A-Za-z][\w\s\-\/]+?` may contain after
its leading letter (`\w` is alphanumeric plus underscore; ASCII model). -/
def isNameChar (c : Char) : Bool :=
  c.isAlpha || c.isDigit || c = '_' || c.isWhitespace || c = '-' || c = '/'

/-- The dosage units `(?:mg|mcg|g|ml)` — the remainder must be exactly
one of them, since the token is already stripped and the pattern is
anchored at the end. -/
def unitOK (l : List Char) : Bool :=
  l = ['m', 'g'] || l = ['m', 'c', 'g'] || l = ['g'] || l = ['m', 'l']

/-- Match `\s+(\d+(?:\.\d+)?\s*(?:mg|mcg|g|ml))` against the remainder of
a stripped token and return the captured dosage group.  Each character
class here is disjoint from its successor, so the greedy quantifiers are
deterministic. -/
def parseDosageRest (rest : List Char) : Option String :=
  let ws := rest.takeWhile Char.isWhitespace
  let r1 := rest.dropWhile Char.isWhitespace
  if ws.isEmpty then none
  else
    let ds := r1.takeWhile Char.isDigit
    let r2 := r1.dropWhile Char.isDigit
    if ds.isEmpty then none
    else
      let fr : List Char × List Char :=
        match r2 with
        | '.' :: t =>
          let fd := t.takeWhile Char.isDigit
          if fd.isEmpty then ([], r2) else ('.' :: fd, t.dropWhile Char.isDigit)
        | _ => ([], r2)
      let ws2 := fr.2.takeWhile Char.isWhitespace
      let r4 := fr.2.dropWhile Char.isWhitespace
      if unitOK r4 then some (String.mk (ds ++ fr.1 ++ ws2 ++ r4)) else none

/-- The lazy name group: try name prefixes shortest-first (`+?`), at each
length first attempting the dosage branch on the remainder and otherwise
the end-of-token branch (the remainder of a stripped token can only
satisfy `\s*$` when it is empty).  `accRev` holds the prefix reversed;
its last element — the first token character — is a letter. -/
def medGo (accRev : List Char) : List Char → Option (String × Option String)
  | [] => none
  | c :: rest =>
    if !isNameChar c then none
    else
      let accRev' := c :: accRev
      if rest.isEmpty then
        some (String.mk (trimChars accRev'.reverse), none)
      else
        match parseDosageRest rest with
        | some g2 => some (String.mk (trimChars accRev'.reverse), some g2)
        | none => medGo accRev' rest

/-- `re.match` of the source's medication pattern against a stripped
token: `^\s*([A-Za-z][\w\s\-\/]+?)(?:\s+(\d+(?:\.\d+)?\s*(?:mg|mcg|g|ml)))?\s*$`
(the outer `\s*` are absorbed by the strip).  Returns
(group(1).strip(), group(2)) — group(2) needs no stripping as it starts
with a digit and ends with a unit letter. -/
def medMatch (p : String) : Option (String × Option String) :=
  match p.data with
  | [] => none
  | c :: cs => if c.isAlpha then medGo [c] cs else none

/-- Per-token loop of `parse_medications`: strip, skip empties, match
the pattern, and fall back to the whole token as name on mismatch. -/
def medTokens : List String → List (String × Option String)
  | [] => []
  | p :: ps =>
    let q := pyStrip p
    if q = "" then medTokens ps
    else
      match medMatch q with
      | some nd => nd :: medTokens ps
      | none => (q, none) :: medTokens ps

/-- The source's `parse_medications`. -/
def parse_medications (v : Option String) : List (String × Option String) :=
  match v with
  | none => []
  | some s => if pyStrip s = "" then [] else medTokens (pySplitDelims s)

/-! The canonical record builder (`normalize_record`). -/

/-- Field built as `str(x).strip().title() if x not in [None, ""] else None`. -/
def strFieldTitle (o : Option String) : Value :=
  match o with
  | some s => if s = "" then .vNull else .vStr (pyTitle (pyStrip s))
  | none => .vNull

/-- Field built as `str(x).strip() if x not in [None, ""] else None`. -/
def strFieldPlain (o : Option String) : Value :=
  match o with
  | some s => if s = "" then .vNull else .vStr (pyStrip s)
  | none => .vNull

/-- Field built as `str(x).strip().upper() if x not in [None, ""] else None`. -/
def strFieldUpper (o : Option String) : Value :=
  match o with
  | some s => if s = "" then .vNull else .vStr (pyUpper (pyStrip s))
  | none => .vNull

/-- The `age` field value from `to_int_safe`. -/
def intValue (o : Option Int) : Value :=
  match o with
  | some i => .vInt i
  | none => .vNull

/-- One parsed medication as the dict the source appends:
`{"name": name, "dosage": dosage}` with `dosage` possibly `None`. -/
def medValue (m : String × Option String) : Value :=
  .vDict [("name", .vStr m.1),
          ("dosage", match m.2 with | some d => .vStr d | none => .vNull)]

/-- The `allergies` field before pruning:
`[a.strip().title() for a in re.split(r"[|,;]", str(x))]` when the raw
value is truthy, else `[]`.  Empty tokens are kept (and become `""`). -/
def allergiesValue (o : Option String) : Value :=
  match o with
  | some s =>
    if s = "" then .vList []
    else .vList ((pySplitDelims s).map (fun a => .vStr (pyTitle (pyStrip a))))
  | none => .vList []

/-- The entry list of the `doc` dict literal in `normalize_record`,
before `prune`, for given resolved `first`/`last` values.  Each entry is
exactly the corresponding line of the source literal. -/
def recordKVs (first last : Option String) (row : Row) (source_file : String)
    (now : Nat) : List (String × Value) :=
  [("patient_id", strFieldPlain (getChain row ["PatientID", "patient_id", "id", "ID"])),
   ("name", .vDict [("first", strFieldTitle first), ("last", strFieldTitle last)]),
   ("gender", strFieldTitle (getChain row ["Gender", "sex"])),
   ("dob", parse_date (getChain row ["DateOfBirth", "dob", "Date of Birth"])),
   ("age", intValue (to_int_safe (getChain row ["Age", "age"]))),
   ("admission", .vDict [
      ("date", parse_date (getChain row ["DateOfAdmission", "admission_date", "Date of Admission"])),
      ("hospital", strFieldTitle (getChain row ["Hospital", "hospital"])),
      ("doctor", strFieldTitle (getChain row ["Doctor", "doctor"]))]),
   ("medical_condition", strFieldTitle (getChain row
      ["MedicalCondition", "Medical Condition", "Condition", "medical_condition"])),
   ("medications", .vList ((parse_medications
      (getChain row ["Medications", "Medication", "medications"])).map medValue)),
   ("allergies", allergiesValue (getChain row ["Allergies", "allergies"])),
   ("address", .vDict [
      ("city", strFieldTitle (getChain row ["Address_City", "City"])),
      ("state", strFieldUpper (getChain row ["Address_State", "State"])),
      ("zip", strFieldPlain (getChain row ["Address_Zip", "Zip", "PostalCode"])),
      ("country", strFieldTitle (getChain row ["Country", "country"]))]),
   ("source_file", .vStr (pyBasename source_file)),
   ("ingested_at", .vTime now)]

/-- The first/last name resolution at the top of `normalize_record`:
the discrete-column chains, overridden by `_split_name` on the combined
`Name` field when both are falsy and `Name` is truthy.  `none` models
the `_split_name` IndexError propagating. -/
def resolveFirstLast (row : Row) : Option (Option String × Option String) :=
  let first0 := getChain row ["FirstName", "first_name", "First Name", "firstname"]
  let last0 := getChain row ["LastName", "last_name", "Last Name", "lastname"]
  if !truthy first0 && !truthy last0 && truthy (rowGet row "Name") then
    splitName (rowGet row "Name")
  else some (first0, last0)

/-- The source's `normalize_record`: alias chains, the combined-name
special case, per-field normalization, document assembly, and `prune`.
Returns `none` where the Python code raises (the `_split_name`
IndexError), which aborts the whole file in `main`.  `now` stands for
the `datetime.utcnow()` capture. -/
def normalize_record (row : Row) (source_file : String) (now : Nat) : Option Value :=
  match resolveFirstLast row with
  | none => none
  | some (first, last) =>
    some (prune (.vDict (recordKVs first last row source_file now)))

/-! The document store (the Mongo collection), as the ingestion core
uses it: a list of documents and `UpdateOne(filter, set-document,
upsert=True)` applied in batch order. -/

/-- A `{field: value}` equality condition of the upsert filter: a `null`
condition matches both a missing field and an explicit `null` value
(Mongo semantics); any other condition matches by equality. -/
def mongoEqMatch (fv : Value) (dv : Option Value) : Bool :=
  match dv with
  | none => decide (fv = Value.vNull)
  | some w => decide (fv = w)

/-- Does a stored document match the natural-key filter
`{"patient_id": pid, "admission.date": doa}`?  The dotted path reads
through the `admission` subdocument. -/
def matchesNatKey (doc : Value) (pid doa : Value) : Bool :=
  mongoEqMatch pid (getField doc "patient_id") &&
  mongoEqMatch doa
    (match getField doc "admission" with
     | some w => getField w "date"
     | none => none)

/-- `$set` with top-level keys: every field named in `upd` is replaced
wholly (or appended, in `upd` order, when new); fields of the old
document not named in `upd` are kept. -/
def setFields (kvs upd : List (String × Value)) : List (String × Value) :=
  (kvs.map fun kv =>
    match lookupKV upd kv.1 with
    | some w => (kv.1, w)
    | none => kv) ++
  upd.filter (fun kv => !(kvs.any (fun kv' => kv'.1 = kv.1)))

/-- The document Mongo builds when an upsert filter matches nothing: the
filter's equality fields (the dotted `admission.date` creating a nested
subdocument) with the `$set` modifications applied on top. -/
def upsertSeedKVs (pid doa : Value) : List (String × Value) :=
  [("patient_id", pid), ("admission", .vDict [("date", doa)])]

/-- The filter values `d.get("patient_id")` and
`d.get("admission", \x7b\x7d).get("date")` the source computes from a
canonical document (missing gives Python `None`, i.e. a null filter). -/
def docPidFilter (d : Value) : Value := (getField d "patient_id").getD .vNull

def docDoaFilter (d : Value) : Value :=
  (match getField d "admission" with
   | some w => getField w "date"
   | none => none).getD .vNull

/-- Fields of a canonical document (always a dict in this pipeline). -/
def docKVs (d : Value) : List (String × Value) :=
  match d with
  | .vDict kvs => kvs
  | _ => []

/-- One `UpdateOne({natural key}, {"$set": d}, upsert=True)`: replace the
first matching document by its `$set`-update, or append the seeded
document when nothing matches. -/
def updateOneUpsert (store : List Value) (pid doa : Value)
    (upd : List (String × Value)) : List Value :=
  match store with
  | [] => [.vDict (setFields (upsertSeedKVs pid doa) upd)]
  | doc :: rest =>
    if matchesNatKey doc pid doa then
      Value.vDict (setFields (docKVs doc) upd) :: rest
    else doc :: updateOneUpsert rest pid doa upd

/-- The batch `col.bulk_write(ops, ordered=False)`: the per-document
upserts applied in list order (ordered=False only changes error
handling, not the model of a successful write). -/
def bulkUpsert (store : List Value) (docs : List Value) : List Value :=
  docs.foldl (fun st d => updateOneUpsert st (docPidFilter d) (docDoaFilter d) (docKVs d)) store

/-! The ingestion ledger and the per-file controller step. -/

/-- One `ingestion_logs` entry, as `main` inserts it. -/
structure LedgerEntry where
  file : String
  sha256 : String
  rows : Nat
  ts : Nat
deriving Repr, DecidableEq

/-- The durable state the controller reads and writes: the patients
collection and the ingestion ledger. -/
structure SysState where
  store : List Value
  ledger : List LedgerEntry
deriving Repr, DecidableEq

/-- The ledger gate `logs.find_one({"file": basename, "sha256": sha})`:
an entry must match on *both* the basename and the content hash. -/
def hasLedger (ledger : List LedgerEntry) (file sha : String) : Bool :=
  ledger.any fun e => e.file = file && e.sha256 = sha

/-- Outcome of one file inside a poll cycle: skipped by the ledger gate,
fully processed (with the document count), or aborted by an exception
(caught by the per-cycle handler, which moves on to the next cycle). -/
inductive FileOutcome where
  | skipped : FileOutcome
  | done (n : Nat) : FileOutcome
  | failed : FileOutcome
deriving Repr, DecidableEq

/-- Oracle for the fallible `col.bulk_write` call: either every op is
applied, or a `BulkWriteError`/connectivity error is raised after the
first `k` ops applied (unordered partial application). -/
inductive WriteRes where
  | ok : WriteRes
  | failAfter (k : Nat) : WriteRes
deriving Repr, DecidableEq

/-- The row loop of `main`: every row is normalized in order; a raising
row (see `normalize_record`) aborts the file. -/
def buildDocs (rows : List Row) (fpath : String) (now : Nat) : Option (List Value) :=
  rows.mapM fun r => normalize_record r fpath now

/-- One file of the poll cycle in `main`, from the hash check to the
ledger insert.  `hash` abstracts `file_sha256` (SHA-256 of the file
bytes — the controller only ever compares its output); `content` is the
file's byte content, `rows` its parsed rows (`pd.read_csv` is the
external parser), `now` the cycle's clock, and `wr` the store-write
oracle.  The ledger entry is inserted only after the batch write
returns; any exception before that point leaves the ledger unchanged. -/
def processFile (hash : String → String) (st : SysState)
    (fpath content : String) (rows : List Row) (now : Nat) (wr : WriteRes) :
    SysState × FileOutcome :=
  let sha := hash content
  if hasLedger st.ledger (pyBasename fpath) sha then (st, .skipped)
  else
    match buildDocs rows fpath now with
    | none => (st, .failed)
    | some docs =>
      if docs.isEmpty then
        ({ st with ledger := st.ledger ++ [⟨pyBasename fpath, sha, 0, now⟩] }, .done 0)
      else
        match wr with
        | .ok =>
          ({ store := bulkUpsert st.store docs,
             ledger := st.ledger ++ [⟨pyBasename fpath, sha, docs.length, now⟩] },
           .done docs.length)
        | .failAfter k =>
          ({ st with store := bulkUpsert st.store (docs.take k) }, .failed)

/-! Concrete inputs used by counterexamples and witnesses. -/

/-- A ledger that already records content hash "HASH" under the name
`a.csv`. -/
def stC1 : SysState := { store := [], ledger := [⟨"a.csv", "HASH", 1, 0⟩] }

/-- A one-column row that normalizes without error. -/
def rowC1 : Row := [("PatientID", some "P1")]

/-- C1 counterexample.  The claim says a file whose content hash matches
an existing ledger entry is skipped even under a different filename,
with zero store writes and zero new ledger entries.  In the code the
ledger gate is `find_one({"file": basename, "sha256": sha})`, so the
same content under the new name `b.csv` (hash abstracted by `id`:
content "HASH" hashes to the ledgered "HASH") is fully reprocessed:
the outcome is `done`, the store gains a document, and the ledger gains
a second entry. -/
theorem C1_counterexample :
    (processFile id stC1 "/data/b.csv" "HASH" [rowC1] 7 .ok).2 = .done 1 ∧
    (processFile id stC1 "/data/b.csv" "HASH" [rowC1] 7 .ok).1.ledger.length = 2 ∧
    (processFile id stC1 "/data/b.csv" "HASH" [rowC1] 7 .ok).1.store.length = 1 := by
  refine ⟨rfl, rfl, rfl⟩

/-- C2 counterexample.  The claim says the canonical document contains
no empty mapping anywhere, every branch empty after pruning its children
being absent.  On the empty row, `name`, `admission` and `address` are
non-empty dicts of `None`s before pruning, so `prune` keeps them and
they survive as `\x7b\x7d`: the output contains empty mappings. -/
theorem C2_counterexample :
    (normalize_record [] "f.csv" 0).map hasEmptyDict = some true ∧
    normalize_record [] "f.csv" 0 =
      some (.vDict [("name", .vDict []), ("admission", .vDict []),
                    ("address", .vDict []),
                    ("source_file", .vStr "f.csv"), ("ingested_at", .vTime 0)]) := by
  refine ⟨rfl, rfl⟩

/-- Two rows with the same `patient_id` and no admission date: they
share the natural key. -/
def rowC3a : Row := [("PatientID", some "P1"), ("Age", some "50")]

def rowC3b : Row := [("PatientID", some "P1"), ("Gender", some "m")]

def docC3a : Value := (normalize_record rowC3a "f.csv" 0).getD .vNull

def docC3b : Value := (normalize_record rowC3b "f.csv" 0).getD .vNull

/-- C3 counterexample.  The claim says the matched document is fully
replaced by the new document (no field-level merge), so after upserting
`docC3a` (which has `age` 50, no `gender`) and then `docC3b` (which has
`gender`, no `age`) the stored document should equal `docC3b` and have
no `age`.  The code writes `{"$set": d}`, so the stored document keeps
`age` 50 from the first write and gains `gender` — a field-level merge. -/
theorem C3_counterexample :
    getField docC3b "age" = none ∧
    (bulkUpsert [] [docC3a, docC3b]).length = 1 ∧
    getField ((bulkUpsert [] [docC3a, docC3b]).headD .vNull) "age" = some (.vInt 50) ∧
    getField ((bulkUpsert [] [docC3a, docC3b]).headD .vNull) "gender" = some (.vStr "M") := by
  refine ⟨rfl, rfl, rfl, rfl⟩

/-- C5 counterexample.  The claim says `"01/02/2023"` parses as
January 2, 2023.  The first slash format tried is `%d/%m/%Y`
(day/month), which succeeds with day 1, month 2: February 1, 2023. -/
theorem C5_counterexample :
    parse_date (some "01/02/2023") = .vDate 2023 2 1 ∧
    Value.vDate 2023 2 1 ≠ Value.vDate 2023 1 2 := by
  refine ⟨rfl, by decide⟩

/-- C7 evaluation at the failing input.  A row whose only name datum is
the whitespace-only combined field `" "` satisfies the claim's
antecedent (no first/last alias resolves, the full-name field is truthy)
but `_split_name` raises `IndexError` (`parts[-1]` on the empty token
list of `" ".split()`), aborting the whole file — modelled by `none` —
instead of splitting the name.  The two documented examples do behave
as the claim says. -/
theorem C7_split_name_eval :
    normalize_record [("Name", some " ")] "f.csv" 0 = none ∧
    splitName (some " ") = none ∧
    splitName (some "John Smith") = some (some "John", some "Smith") ∧
    splitName (some "Madonna") = some (some "Madonna", none) := by
  refine ⟨rfl, rfl, rfl, rfl⟩

/-- C8 counterexample.  The claim says the age, when present, is
non-negative.  `int(float("-5"))` is `-5`, which the pipeline stores:
the canonical document of a row with `Age = "-5"` carries `age = -5`. -/
theorem C8_counterexample :
    (normalize_record [("Age", some "-5")] "f.csv" 0).map (fun d => getField d "age") =
      some (some (.vInt (-5))) ∧
    (-5 : Int) < 0 := by
  refine ⟨rfl, by decide⟩

/-! Invariants of `prune`. -/

theorem ne_null_of_not_emptyish {v : Value} (h : isEmptyish v = false) :
    v ≠ Value.vNull := by
  intro hv
  rw [hv] at h
  simp [isEmptyish] at h

mutual
theorem hasNull_prune : (v : Value) → v ≠ Value.vNull → hasNull (prune v) = false
  | .vStr _, _ => rfl
  | .vInt _, _ => rfl
  | .vDate _ _ _, _ => rfl
  | .vNaT, _ => rfl
  | .vTime _, _ => rfl
  | .vNull, h => absurd rfl h
  | .vList xs, _ => by
    rw [prune, hasNull]
    exact hasNullList_pruneList xs
  | .vDict kvs, _ => by
    rw [prune, hasNull]
    exact hasNullKVs_pruneKVs kvs

theorem hasNullList_pruneList : (xs : List Value) → hasNullList (pruneList xs) = false
  | [] => rfl
  | x :: xs => by
    rw [pruneList]
    by_cases hx : isEmptyish x = true
    · rw [if_pos hx]
      exact hasNullList_pruneList xs
    · rw [if_neg hx, hasNullList,
          hasNull_prune x (ne_null_of_not_emptyish (Bool.of_not_eq_true hx)),
          hasNullList_pruneList xs]
      rfl

theorem hasNullKVs_pruneKVs : (kvs : List (String × Value)) → hasNullKVs (pruneKVs kvs) = false
  | [] => rfl
  | (k, v) :: kvs => by
    rw [pruneKVs]
    by_cases hv : isEmptyish v = true
    · rw [if_pos hv]
      exact hasNullKVs_pruneKVs kvs
    · rw [if_neg hv, hasNullKVs,
          hasNull_prune v (ne_null_of_not_emptyish (Bool.of_not_eq_true hv)),
          hasNullKVs_pruneKVs kvs]
      rfl
end

/-- C2 amended.  The claim's no-null part survives: every canonical
document produced by `normalize_record` contains no `None` anywhere.
(The counterexample defeats the rest of the claim: because `prune`
filters children before pruning them, a branch emptied only by pruning
its children is kept as an empty mapping, and empty strings are never
pruned.) -/
theorem C2_amended_no_null_leaf :
    ∀ (row : Row) (f : String) (now : Nat) (d : Value),
    normalize_record row f now = some d → hasNull d = false := by
  intro row f now d h
  unfold normalize_record at h
  cases hfl : resolveFirstLast row with
  | none => rw [hfl] at h; exact absurd h (by simp)
  | some fl =>
    rw [hfl] at h
    have hd : d = prune (.vDict (recordKVs fl.1 fl.2 row f now)) := by
      injection h with h'
      exact h'.symm
    rw [hd]
    exact hasNull_prune _ (by intro hh; cases hh)

/-- C2 amended witness, at the empty row. -/
theorem C2_witness :
    hasNull (.vDict [("name", .vDict []), ("admission", .vDict []),
                     ("address", .vDict []),
                     ("source_file", .vStr "f.csv"), ("ingested_at", .vTime 0)]) = false :=
  C2_amended_no_null_leaf [] "f.csv" 0 _ rfl

/-- C4.  The ledger entry for a file is recorded only after the batch
write returns: if the write raises (`failAfter k`, any `k`), the cycle
aborts with the ledger unchanged, so a later cycle — here run with a
working store — is not gated and commits exactly one entry carrying the
file's row count and content hash; on success the single entry is
appended immediately. -/
theorem C4_ledger_after_write :
    ∀ (hash : String → String) (st : SysState) (fpath content : String)
      (rows : List Row) (now : Nat) (k : Nat) (docs : List Value),
    hasLedger st.ledger (pyBasename fpath) (hash content) = false →
    buildDocs rows fpath now = some docs →
    docs ≠ [] →
    (processFile hash st fpath content rows now (.failAfter k)).1.ledger = st.ledger ∧
    (processFile hash st fpath content rows now (.failAfter k)).2 = .failed ∧
    (processFile hash st fpath content rows now .ok).1.ledger =
      st.ledger ++ [⟨pyBasename fpath, hash content, docs.length, now⟩] ∧
    (processFile hash st fpath content rows now .ok).2 = .done docs.length ∧
    (processFile hash (processFile hash st fpath content rows now (.failAfter k)).1
       fpath content rows now .ok).1.ledger =
      st.ledger ++ [⟨pyBasename fpath, hash content, docs.length, now⟩] := by
  intro hash st fpath content rows now k docs hgate hdocs hne
  have hempty : docs.isEmpty = false := by
    cases docs with
    | nil => exact absurd rfl hne
    | cons a l => rfl
  refine ⟨?_, ?_, ?_, ?_, ?_⟩ <;>
    simp [processFile, hgate, hdocs, hempty]

/-- C4 witness: a fresh state, a one-row file, a write failure, then a
successful retry. -/
theorem C4_witness :
    (processFile id { store := [], ledger := [] } "/data/a.csv" "C" [rowC1] 3
        (.failAfter 0)).1.ledger = [] ∧
    (processFile id (processFile id { store := [], ledger := [] } "/data/a.csv" "C"
        [rowC1] 3 (.failAfter 0)).1 "/data/a.csv" "C" [rowC1] 3 .ok).1.ledger =
      [] ++ [⟨pyBasename "/data/a.csv", id "C",
             ((buildDocs [rowC1] "/data/a.csv" 3).getD []).length, 3⟩] := by
  have h := C4_ledger_after_write id { store := [], ledger := [] } "/data/a.csv" "C"
    [rowC1] 3 0 ((buildDocs [rowC1] "/data/a.csv" 3).getD []) rfl rfl (by decide)
  exact ⟨h.1, h.2.2.2.2⟩

theorem hasLedger_append_entry (l : List LedgerEntry) (b s : String) (r t : Nat) :
    hasLedger (l ++ [⟨b, s, r, t⟩]) b s = true := by
  induction l with
  | nil => simp [hasLedger]
  | cons e rest ih =>
    simp only [hasLedger, List.cons_append, List.any_cons] at ih ⊢
    rw [ih]
    simp

/-- C1 amended.  The ledger gate requires *both* the basename and the
content hash to match an existing entry (so a rescan of the same file —
same name, same content — is skipped with no writes and no new ledger
entry, but the same content under a different filename is reprocessed,
as the counterexample shows): whenever the pair is ledgered the step
returns the state unchanged with outcome `skipped`, and after a
successful pass over a file, running the controller again on the same
path and content is skipped whatever the write oracle says. -/
theorem C1_amended_skip_requires_name_and_hash :
    ∀ (hash : String → String) (st : SysState) (fpath content : String)
      (rows : List Row) (now : Nat) (wr : WriteRes),
    (hasLedger st.ledger (pyBasename fpath) (hash content) = true →
      processFile hash st fpath content rows now wr = (st, .skipped)) ∧
    (∀ st' n, processFile hash st fpath content rows now .ok = (st', .done n) →
      ∀ (rows' : List Row) (now' : Nat) (wr' : WriteRes),
        processFile hash st' fpath content rows' now' wr' = (st', .skipped)) := by
  intro hash st fpath content rows now wr
  constructor
  · intro hgate
    simp [processFile, hgate]
  · intro st' n h rows' now' wr'
    unfold processFile at h
    by_cases hgate : hasLedger st.ledger (pyBasename fpath) (hash content) = true
    · rw [if_pos hgate] at h
      exact absurd (congrArg Prod.snd h) (by simp)
    · rw [if_neg hgate] at h
      cases hdocs : buildDocs rows fpath now with
      | none =>
        rw [hdocs] at h
        exact absurd (congrArg Prod.snd h) (by simp)
      | some docs =>
        rw [hdocs] at h
        dsimp only at h
        have hled : st'.ledger = st.ledger ++
            [⟨pyBasename fpath, hash content, docs.length, now⟩] ∨
            st'.ledger = st.ledger ++ [⟨pyBasename fpath, hash content, 0, now⟩] := by
          by_cases hemp : docs.isEmpty = true
          · rw [if_pos hemp] at h
            injection h with h1 h2
            right
            rw [← h1]
          · rw [if_neg hemp] at h
            injection h with h1 h2
            left
            rw [← h1]
        have hgate' : hasLedger st'.ledger (pyBasename fpath) (hash content) = true := by
          cases hled with
          | inl he => rw [he]; exact hasLedger_append_entry ..
          | inr he => rw [he]; exact hasLedger_append_entry ..
        simp [processFile, hgate']

/-- C1 amended witness: process a fresh file once, then re-run the
controller on the same path and content; the second pass is skipped. -/
theorem C1_witness :
    processFile id (processFile id { store := [], ledger := [] } "/data/a.csv" "C"
        [rowC1] 0 .ok).1 "/data/a.csv" "C" [rowC1] 1 .ok =
      ((processFile id { store := [], ledger := [] } "/data/a.csv" "C"
        [rowC1] 0 .ok).1, .skipped) :=
  (C1_amended_skip_requires_name_and_hash id { store := [], ledger := [] }
    "/data/a.csv" "C" [rowC1] 0 .ok).2 _ 1 rfl [rowC1] 1 .ok

/-- C5 amended.  Date parsing tries `%Y-%m-%d`, `%d/%m/%Y`, `%m/%d/%Y`,
`%Y/%m/%d` in that order with the first success winning — so
`"01/02/2023"` parses day-first as February 1, 2023 (the claim's
"January 2" is what month-first would give).  Missing/blank input is
absent.  When all four fixed formats fail the permissive
`pd.to_datetime(..., errors="coerce")` fallback is attempted; when that
also fails nothing is raised, but the result is the NaT sentinel rather
than `None`, and since `prune` only removes `None`/`[]`/`\x7b\x7d` the
field stays *present* holding NaT (`"not-a-date"` does not yield an
absent field). -/
theorem C5_amended_date_precedence :
    parse_date (some "2023-05-01") = .vDate 2023 5 1 ∧
    parse_date (some "01/02/2023") = .vDate 2023 2 1 ∧
    parse_date (some "not-a-date") = .vNaT ∧
    parse_date none = .vNull ∧
    parse_date (some " ") = .vNull ∧
    (∀ s y m d, pyStrip s ≠ "" → strptimeYMDdash s = some (y, m, d) →
      parse_date (some s) = .vDate y m d) ∧
    (∀ s y m d, pyStrip s ≠ "" → strptimeYMDdash s = none →
      strptimeDMYslash s = some (y, m, d) → parse_date (some s) = .vDate y m d) ∧
    (∀ s y m d, pyStrip s ≠ "" → strptimeYMDdash s = none → strptimeDMYslash s = none →
      strptimeMDYslash s = some (y, m, d) → parse_date (some s) = .vDate y m d) ∧
    (∀ s y m d, pyStrip s ≠ "" → strptimeYMDdash s = none → strptimeDMYslash s = none →
      strptimeMDYslash s = none → strptimeYMDslash s = some (y, m, d) →
      parse_date (some s) = .vDate y m d) ∧
    (∀ s, pyStrip s ≠ "" → strptimeYMDdash s = none → strptimeDMYslash s = none →
      strptimeMDYslash s = none → strptimeYMDslash s = none →
      parse_date (some s) = pdToDatetimeCoerce s) ∧
    (normalize_record [("dob", some "not-a-date")] "f.csv" 0).map
      (fun d => getField d "dob") = some (some .vNaT) := by
  refine ⟨rfl, rfl, rfl, rfl, rfl, ?_, ?_, ?_, ?_, ?_, rfl⟩
  · intro s y m d hs h1
    simp [parse_date, hs, h1]
  · intro s y m d hs h1 h2
    simp [parse_date, hs, h1, h2]
  · intro s y m d hs h1 h2 h3
    simp [parse_date, hs, h1, h2, h3]
  · intro s y m d hs h1 h2 h3 h4
    simp [parse_date, hs, h1, h2, h3, h4]
  · intro s hs h1 h2 h3 h4
    simp [parse_date, hs, h1, h2, h3, h4]

/-- C5 amended witness: the first-format conjunct at a concrete date. -/
theorem C5_witness : parse_date (some "1999-12-31") = .vDate 1999 12 31 :=
  C5_amended_date_precedence.2.2.2.2.2.1 "1999-12-31" 1999 12 31 (by decide) rfl

/-! Reading fields of a pruned dict. -/

theorem lookupKV_pruneKVs_not_mem :
    ∀ (kvs : List (String × Value)) (k : String),
    (∀ e ∈ kvs, e.1 ≠ k) → lookupKV (pruneKVs kvs) k = none := by
  intro kvs k h
  induction kvs with
  | nil => rfl
  | cons e rest ih =>
    obtain ⟨k', v⟩ := e
    rw [pruneKVs]
    have hk' : k' ≠ k := h (k', v) (by simp)
    by_cases hv : isEmptyish v = true
    · rw [if_pos hv]
      exact ih (fun e he => h e (List.mem_cons_of_mem _ he))
    · rw [if_neg hv, lookupKV, if_neg hk']
      exact ih (fun e he => h e (List.mem_cons_of_mem _ he))

theorem lookupKV_pruneKVs :
    ∀ (kvs : List (String × Value)) (k : String),
    (kvs.map Prod.fst).Nodup →
    lookupKV (pruneKVs kvs) k =
      match lookupKV kvs k with
      | some v => if isEmptyish v then none else some (prune v)
      | none => none := by
  intro kvs k h
  induction kvs with
  | nil => rfl
  | cons e rest ih =>
    obtain ⟨k', v⟩ := e
    rw [List.map_cons, List.nodup_cons] at h
    rw [pruneKVs, lookupKV]
    by_cases hk : k' = k
    · subst hk
      rw [if_pos rfl]
      dsimp only
      by_cases hv : isEmptyish v = true
      · rw [if_pos hv, hv]
        simp only [if_true]
        exact lookupKV_pruneKVs_not_mem rest k' (by
          intro e he hek
          apply h.1
          show k' ∈ List.map Prod.fst rest
          rw [← hek]
          exact List.mem_map_of_mem Prod.fst he)
      · rw [if_neg hv, lookupKV, if_pos rfl, Bool.of_not_eq_true hv]
        simp
    · rw [if_neg hk]
      by_cases hv : isEmptyish v = true
      · rw [if_pos hv]
        exact ih h.2
      · rw [if_neg hv, lookupKV, if_neg hk]
        exact ih h.2

theorem getField_prune_vDict (kvs : List (String × Value)) (k : String)
    (h : (kvs.map Prod.fst).Nodup) :
    getField (prune (.vDict kvs)) k =
      match lookupKV kvs k with
      | some v => if isEmptyish v then none else some (prune v)
      | none => none := by
  rw [prune, getField]
  exact lookupKV_pruneKVs kvs k h

theorem normalize_record_shape (row : Row) (f : String) (now : Nat) (d : Value)
    (h : normalize_record row f now = some d) :
    ∃ a b, resolveFirstLast row = some (a, b) ∧
      d = prune (.vDict (recordKVs a b row f now)) := by
  unfold normalize_record at h
  cases hfl : resolveFirstLast row with
  | none => rw [hfl] at h; exact absurd h (by simp)
  | some fl =>
    rw [hfl] at h
    refine ⟨fl.1, fl.2, rfl, ?_⟩
    injection h with h'
    exact h'.symm

/-- The fixed key list of `recordKVs` — the field names of the `doc`
literal in the source. -/
theorem recordKVs_keys (a b : Option String) (row : Row) (f : String) (now : Nat) :
    (recordKVs a b row f now).map Prod.fst =
      ["patient_id", "name", "gender", "dob", "age", "admission",
       "medical_condition", "medications", "allergies", "address",
       "source_file", "ingested_at"] := rfl

theorem recordKVs_keys_nodup (a b : Option String) (row : Row) (f : String) (now : Nat) :
    ((recordKVs a b row f now).map Prod.fst).Nodup := by
  rw [recordKVs_keys]
  decide

/-! Facts about the decimal-shape check of `to_int_safe`. -/

theorem mem_trimChars {c : Char} {l : List Char} (h : c ∈ trimChars l) : c ∈ l := by
  unfold trimChars dropLeftWs at h
  rw [List.mem_reverse] at h
  have h1 := List.dropWhile_sublist (l := (l.dropWhile Char.isWhitespace).reverse)
    (p := Char.isWhitespace)
  have h2 := h1.subset h
  rw [List.mem_reverse] at h2
  exact (List.dropWhile_sublist (l := l) (p := Char.isWhitespace)).subset h2

theorem mem_parseSign {c : Char} {l : List Char} (h : c ∈ (parseSign l).2) : c ∈ l := by
  unfold parseSign at h
  split at h
  · exact List.mem_cons_of_mem _ h
  · exact List.mem_cons_of_mem _ h
  · exact h

theorem decimalShape_false_of_no_digit (l : List Char)
    (h : ∀ c ∈ l, c.isDigit = false) : decimalShape l = false := by
  cases l with
  | nil => rfl
  | cons c r =>
    have hc := h c (by simp)
    have hdrop : (c :: r).dropWhile Char.isDigit = c :: r := by
      rw [List.dropWhile_cons, hc]
      simp
    have htake : (c :: r).takeWhile Char.isDigit = [] := by
      rw [List.takeWhile_cons, hc]
      simp
    rw [decimalShape, hdrop, htake]
    split
    · rfl
    · rename_i heq
      injection heq with h1 h2
      subst h2
      cases r with
      | nil => simp
      | cons c2 r2 =>
        have hc2 := h c2 (by simp)
        simp [hc2]
    · rfl

theorem pyFloatTruncInt_none_of_no_digit (s : String)
    (h : ∀ c ∈ s.data, c.isDigit = false) : pyFloatTruncInt s = none := by
  have hshape : decimalShape (parseSign (trimChars s.data)).2 = false := by
    apply decimalShape_false_of_no_digit
    intro c hc
    exact h c (mem_trimChars (mem_parseSign hc))
  simp [pyFloatTruncInt, hshape]

/-- C8 amended.  Age is coerced through the decimal float parse and
truncated toward zero (`int(float(v))`): missing, empty or digit-free
raw values yield an absent field and never an error, and whatever
`to_int_safe` yields is stored as the `age` field of the canonical
document — including negative integers, since the code never enforces
the claim's non-negativity (the counterexample stores `age = -5`). -/
theorem C8_amended_age_truncation :
    to_int_safe none = none ∧
    to_int_safe (some "") = none ∧
    to_int_safe (some "52.9") = some 52 ∧
    to_int_safe (some "-5.9") = some (-5) ∧
    (∀ s : String, (∀ c ∈ s.data, c.isDigit = false) → to_int_safe (some s) = none) ∧
    (∀ (row : Row) (f : String) (now : Nat) (d : Value),
      normalize_record row f now = some d →
      getField d "age" =
        match to_int_safe (getChain row ["Age", "age"]) with
        | some i => some (.vInt i)
        | none => none) := by
  refine ⟨rfl, rfl, rfl, rfl, ?_, ?_⟩
  · intro s hs
    rw [to_int_safe]
    by_cases hse : s = ""
    · rw [if_pos hse]
    · rw [if_neg hse]
      exact pyFloatTruncInt_none_of_no_digit s hs
  · intro row f now d h
    obtain ⟨a, b, hfl, hd⟩ := normalize_record_shape row f now d h
    rw [hd, getField_prune_vDict _ _ (recordKVs_keys_nodup a b row f now)]
    have hlook : lookupKV (recordKVs a b row f now) "age" =
        some (intValue (to_int_safe (getChain row ["Age", "age"]))) := rfl
    rw [hlook]
    cases hti : to_int_safe (getChain row ["Age", "age"]) with
    | none => simp [hti, intValue, isEmptyish]
    | some i => simp [hti, intValue, isEmptyish, prune]

/-- C8 amended witness: a digit-free raw age is absent. -/
theorem C8_witness : to_int_safe (some "xyz") = none :=
  C8_amended_age_truncation.2.2.2.2.1 "xyz" (by decide)

theorem lookupKV_append (A B : List (String × Value)) (k : String) :
    lookupKV (A ++ B) k =
      match lookupKV A k with
      | some v => some v
      | none => lookupKV B k := by
  induction A with
  | nil => rfl
  | cons e rest ih =>
    obtain ⟨k', v⟩ := e
    rw [List.cons_append, lookupKV]
    by_cases hk : k' = k
    · rw [if_pos hk]
      conv_rhs => rw [lookupKV, if_pos hk]
    · rw [if_neg hk]
      conv_rhs => rw [lookupKV, if_neg hk]
      exact ih

theorem lookupKV_subst (upd kvs : List (String × Value)) (k : String) :
    lookupKV (kvs.map fun kv =>
      match lookupKV upd kv.1 with
      | some w => (kv.1, w)
      | none => kv) k =
    match lookupKV kvs k with
    | some v => some (match lookupKV upd k with
                      | some w => w
                      | none => v)
    | none => none := by
  induction kvs with
  | nil => rfl
  | cons e rest ih =>
    obtain ⟨k1, v1⟩ := e
    rw [List.map_cons]
    by_cases hk : k1 = k
    · subst hk
      cases h1 : lookupKV upd k1 <;> simp [lookupKV, h1]
    · cases h1 : lookupKV upd k1 <;> simp [lookupKV, hk, h1, ih]

theorem lookupKV_filter_not_in (kvs upd : List (String × Value)) (k : String) :
    lookupKV (upd.filter fun kv => !(kvs.any fun kv' => kv'.1 = kv.1)) k =
      if kvs.any (fun kv' => kv'.1 = k) then none else lookupKV upd k := by
  induction upd with
  | nil => cases h : kvs.any (fun kv' => kv'.1 = k) <;> simp [h, lookupKV]
  | cons e rest ih =>
    obtain ⟨k1, w1⟩ := e
    rw [List.filter_cons]
    by_cases hk : k1 = k
    · subst hk
      cases h : kvs.any (fun kv' => kv'.1 = k1) with
      | true =>
        simp only [h, Bool.not_true, Bool.false_eq_true, if_false, if_true]
        rw [ih]
        simp [h]
      | false =>
        simp only [h, Bool.not_false, if_true]
        simp [lookupKV, h]
    · cases h : kvs.any (fun kv' => kv'.1 = k1) with
      | true =>
        simp only [h, Bool.not_true, Bool.false_eq_true, if_false]
        rw [ih]
        cases hany : kvs.any (fun kv' => kv'.1 = k) <;> simp [hany, lookupKV, hk]
      | false =>
        simp only [h, Bool.not_false, if_true]
        rw [lookupKV, if_neg hk, ih]
        cases hany : kvs.any (fun kv' => kv'.1 = k) <;> simp [hany, lookupKV, hk]

theorem any_key_eq_isSome (kvs : List (String × Value)) (k : String) :
    (kvs.any fun kv' => kv'.1 = k) = (lookupKV kvs k).isSome := by
  induction kvs with
  | nil => rfl
  | cons e rest ih =>
    obtain ⟨k1, v1⟩ := e
    rw [List.any_cons, lookupKV]
    by_cases hk : k1 = k
    · simp [hk]
    · simp [hk]
      exact ih

theorem lookupKV_setFields (kvs upd : List (String × Value)) (k : String) :
    lookupKV (setFields kvs upd) k =
      match lookupKV upd k with
      | some w => some w
      | none => lookupKV kvs k := by
  rw [setFields, lookupKV_append, lookupKV_subst, lookupKV_filter_not_in,
      any_key_eq_isSome]
  cases hkv : lookupKV kvs k with
  | some v =>
    cases hu : lookupKV upd k with
    | some w => simp
    | none => simp
  | none =>
    cases hu : lookupKV upd k with
    | some w => simp [hu]
    | none => simp [hu]

theorem updateOneUpsert_no_match (store : List Value) (pid doa : Value)
    (upd : List (String × Value))
    (h : ∀ doc ∈ store, matchesNatKey doc pid doa = false) :
    updateOneUpsert store pid doa upd =
      store ++ [.vDict (setFields (upsertSeedKVs pid doa) upd)] := by
  induction store with
  | nil => rfl
  | cons doc rest ih =>
    rw [updateOneUpsert, if_neg (by rw [h doc (by simp)]; simp)]
    rw [ih (fun e he => h e (List.mem_cons_of_mem _ he))]
    rfl

theorem updateOneUpsert_match (pre post : List Value) (kvs : List (String × Value))
    (pid doa : Value) (upd : List (String × Value))
    (hpre : ∀ doc ∈ pre, matchesNatKey doc pid doa = false)
    (hm : matchesNatKey (.vDict kvs) pid doa = true) :
    updateOneUpsert (pre ++ .vDict kvs :: post) pid doa upd =
      pre ++ .vDict (setFields kvs upd) :: post := by
  induction pre with
  | nil =>
    rw [List.nil_append, updateOneUpsert, if_pos hm]
    rfl
  | cons doc rest ih =>
    rw [List.cons_append, updateOneUpsert,
        if_neg (by rw [hpre doc (by simp)]; simp)]
    rw [ih (fun e he => hpre e (List.mem_cons_of_mem _ he))]
    rfl

/-- C3 amended.  The store write is keyed on (patient_id,
admission.date) with a null condition matching null-or-missing: when no
document matches, a document seeded from the filter's key fields with
the record `$set` on top is appended; when one matches, the *first*
matching document is updated in place by `$set` — every top-level field
present in the new record replaces the old wholly, but fields of the
matched document that the new record lacks are preserved.  This is a
top-level field-wise merge, not the full-document replacement the claim
states (see the counterexample, where an upserted record keeps the
previous record's `age`). -/
theorem C3_amended_upsert_set_merge :
    (∀ (store : List Value) (pid doa : Value) (upd : List (String × Value)),
      (∀ doc ∈ store, matchesNatKey doc pid doa = false) →
      updateOneUpsert store pid doa upd =
        store ++ [.vDict (setFields (upsertSeedKVs pid doa) upd)]) ∧
    (∀ (pre post : List Value) (kvs : List (String × Value)) (pid doa : Value)
       (upd : List (String × Value)),
      (∀ doc ∈ pre, matchesNatKey doc pid doa = false) →
      matchesNatKey (.vDict kvs) pid doa = true →
      updateOneUpsert (pre ++ .vDict kvs :: post) pid doa upd =
        pre ++ .vDict (setFields kvs upd) :: post) ∧
    (∀ (kvs upd : List (String × Value)) (k : String),
      lookupKV (setFields kvs upd) k =
        match lookupKV upd k with
        | some w => some w
        | none => lookupKV kvs k) := by
  refine ⟨?_, ?_, ?_⟩
  · intro store pid doa upd h
    exact updateOneUpsert_no_match store pid doa upd h
  · intro pre post kvs pid doa upd hpre hm
    exact updateOneUpsert_match pre post kvs pid doa upd hpre hm
  · intro kvs upd k
    exact lookupKV_setFields kvs upd k

/-- C3 amended witness: an upsert into an empty store inserts the
seeded document, and `$set` keeps an old field absent from the update. -/
theorem C3_witness :
    updateOneUpsert [] (.vStr "P") .vNull [("age", .vInt 1)] =
      [.vDict (setFields (upsertSeedKVs (.vStr "P") .vNull) [("age", .vInt 1)])] ∧
    lookupKV (setFields [("age", .vInt 7), ("gender", .vStr "M")] [("age", .vInt 1)])
        "gender" = some (.vStr "M") := by
  constructor
  · exact C3_amended_upsert_set_merge.1 [] (.vStr "P") .vNull [("age", .vInt 1)]
      (by intro doc hd; cases hd)
  · rw [C3_amended_upsert_set_merge.2.2]
    rfl

theorem getChain_single (r : Row) (k : String) : getChain r [k] = rowGet r k := rfl

theorem getChain_cons_cons (r : Row) (k k2 : String) (ks : List String) :
    getChain r (k :: k2 :: ks) = pyOr (rowGet r k) (getChain r (k2 :: ks)) := rfl

theorem getChain_of_firstNonEmpty_some :
    ∀ (r : Row) (ks : List String) (v : String),
    firstNonEmpty r ks = some v → getChain r ks = some v ∧ v ≠ "" := by
  intro r ks
  induction ks with
  | nil => intro v h; cases h
  | cons k rest ih =>
    intro v h
    rw [firstNonEmpty] at h
    cases hk : rowGet r k with
    | none =>
      rw [hk] at h
      dsimp only at h
      obtain ⟨h1, h2⟩ := ih v h
      refine ⟨?_, h2⟩
      cases rest with
      | nil => cases h
      | cons k2 r2 =>
        rw [getChain_cons_cons, pyOr, hk]
        simp [truthy]
        exact h1
    | some w =>
      rw [hk] at h
      dsimp only at h
      by_cases hw : w = ""
      · rw [if_pos hw] at h
        obtain ⟨h1, h2⟩ := ih v h
        refine ⟨?_, h2⟩
        cases rest with
        | nil => cases h
        | cons k2 r2 =>
          rw [getChain_cons_cons, pyOr, hk, hw]
          simp [truthy]
          exact h1
      · rw [if_neg hw] at h
        injection h with hv
        subst hv
        refine ⟨?_, hw⟩
        cases rest with
        | nil => rw [getChain_single]; exact hk
        | cons k2 r2 =>
          rw [getChain_cons_cons, pyOr, hk]
          simp [truthy, hw]

theorem truthy_getChain_of_firstNonEmpty_none :
    ∀ (r : Row) (ks : List String),
    firstNonEmpty r ks = none → truthy (getChain r ks) = false := by
  intro r ks
  induction ks with
  | nil => intro _; rfl
  | cons k rest ih =>
    intro h
    rw [firstNonEmpty] at h
    cases hk : rowGet r k with
    | none =>
      rw [hk] at h
      dsimp only at h
      cases rest with
      | nil => rw [getChain_single, hk]; rfl
      | cons k2 r2 =>
        rw [getChain_cons_cons, pyOr, hk]
        simp [truthy]
        have := ih h
        simpa [truthy] using this
    | some w =>
      rw [hk] at h
      dsimp only at h
      by_cases hw : w = ""
      · rw [if_pos hw] at h
        cases rest with
        | nil => rw [getChain_single, hk, hw]; rfl
        | cons k2 r2 =>
          rw [getChain_cons_cons, pyOr, hk, hw]
          simp [truthy]
          have := ih h
          simpa [truthy] using this
      · rw [if_neg hw] at h
        cases h

theorem strFieldTitle_null {o : Option String} (h : truthy o = false) :
    strFieldTitle o = .vNull := by
  cases o with
  | none => rfl
  | some s =>
    rw [truthy] at h
    simp at h
    simp [strFieldTitle, h]

theorem strFieldPlain_null {o : Option String} (h : truthy o = false) :
    strFieldPlain o = .vNull := by
  cases o with
  | none => rfl
  | some s =>
    rw [truthy] at h
    simp at h
    simp [strFieldPlain, h]

theorem strFieldUpper_null {o : Option String} (h : truthy o = false) :
    strFieldUpper o = .vNull := by
  cases o with
  | none => rfl
  | some s =>
    rw [truthy] at h
    simp at h
    simp [strFieldUpper, h]

theorem parse_date_null {o : Option String} (h : truthy o = false) :
    parse_date o = .vNull := by
  cases o with
  | none => rfl
  | some s =>
    rw [truthy] at h
    simp at h
    subst h
    rfl

theorem to_int_safe_none_of_falsy {o : Option String} (h : truthy o = false) :
    to_int_safe o = none := by
  cases o with
  | none => rfl
  | some s =>
    rw [truthy] at h
    simp at h
    subst h
    rfl

theorem parse_medications_nil {o : Option String} (h : truthy o = false) :
    parse_medications o = [] := by
  cases o with
  | none => rfl
  | some s =>
    rw [truthy] at h
    simp at h
    subst h
    rfl

theorem allergiesValue_nil {o : Option String} (h : truthy o = false) :
    allergiesValue o = .vList [] := by
  cases o with
  | none => rfl
  | some s =>
    rw [truthy] at h
    simp at h
    simp [allergiesValue, h]

theorem resolveFirstLast_no_name (row : Row) (h : truthy (rowGet row "Name") = false) :
    resolveFirstLast row =
      some (getChain row ["FirstName", "first_name", "First Name", "firstname"],
            getChain row ["LastName", "last_name", "Last Name", "lastname"]) := by
  simp [resolveFirstLast, h]

theorem getField_record_top (a b : Option String) (row : Row) (f : String) (now : Nat)
    (k : String) (w : Value)
    (hlook : lookupKV (recordKVs a b row f now) k = some w)
    (hempty : isEmptyish w = true) :
    getField (prune (.vDict (recordKVs a b row f now))) k = none := by
  rw [getField_prune_vDict _ _ (recordKVs_keys_nodup a b row f now), hlook]
  dsimp only
  rw [hempty]
  simp

theorem getField2_record (a b : Option String) (row : Row) (f : String) (now : Nat)
    (k1 : String) (inner : List (String × Value))
    (hlook : lookupKV (recordKVs a b row f now) k1 = some (.vDict inner))
    (hninner : isEmptyish (.vDict inner) = false)
    (hnodup : (inner.map Prod.fst).Nodup)
    (k2 : String) (w : Value)
    (hlook2 : lookupKV inner k2 = some w)
    (hempty : isEmptyish w = true) :
    getField2 (prune (.vDict (recordKVs a b row f now))) k1 k2 = none := by
  rw [getField2, getField_prune_vDict _ _ (recordKVs_keys_nodup a b row f now), hlook]
  dsimp only
  rw [hninner]
  simp only [Bool.false_eq_true, if_false]
  rw [getField_prune_vDict inner k2 hnodup, hlook2]
  dsimp only
  rw [hempty]
  simp


/-- C6.  Alias resolution: a chain `row.get(k1) or row.get(k2) or ...`
yields the first non-empty alias value when one exists (and that value
is non-empty), is falsy when none exists, and in that case the
corresponding canonical field — for every canonical target field of the
record, the name pair included under the no-combined-name hypothesis —
is absent from the pruned document.  The resolution itself is a total
function: no error path exists. -/
theorem C6_alias_resolution :
    (∀ (r : Row) (ks : List String) (v : String),
      firstNonEmpty r ks = some v → getChain r ks = some v ∧ v ≠ "") ∧
    (∀ (r : Row) (ks : List String),
      firstNonEmpty r ks = none → truthy (getChain r ks) = false) ∧
    (∀ (row : Row) (f : String) (now : Nat) (d : Value),
      normalize_record row f now = some d →
      (firstNonEmpty row ["PatientID", "patient_id", "id", "ID"] = none →
        getField d "patient_id" = none) ∧
      (firstNonEmpty row ["Gender", "sex"] = none → getField d "gender" = none) ∧
      (firstNonEmpty row ["DateOfBirth", "dob", "Date of Birth"] = none →
        getField d "dob" = none) ∧
      (firstNonEmpty row ["Age", "age"] = none → getField d "age" = none) ∧
      (firstNonEmpty row ["DateOfAdmission", "admission_date", "Date of Admission"] = none →
        getField2 d "admission" "date" = none) ∧
      (firstNonEmpty row ["Hospital", "hospital"] = none →
        getField2 d "admission" "hospital" = none) ∧
      (firstNonEmpty row ["Doctor", "doctor"] = none →
        getField2 d "admission" "doctor" = none) ∧
      (firstNonEmpty row
          ["MedicalCondition", "Medical Condition", "Condition", "medical_condition"] = none →
        getField d "medical_condition" = none) ∧
      (firstNonEmpty row ["Medications", "Medication", "medications"] = none →
        getField d "medications" = none) ∧
      (firstNonEmpty row ["Allergies", "allergies"] = none →
        getField d "allergies" = none) ∧
      (firstNonEmpty row ["Address_City", "City"] = none →
        getField2 d "address" "city" = none) ∧
      (firstNonEmpty row ["Address_State", "State"] = none →
        getField2 d "address" "state" = none) ∧
      (firstNonEmpty row ["Address_Zip", "Zip", "PostalCode"] = none →
        getField2 d "address" "zip" = none) ∧
      (firstNonEmpty row ["Country", "country"] = none →
        getField2 d "address" "country" = none) ∧
      (firstNonEmpty row ["FirstName", "first_name", "First Name", "firstname"] = none →
       firstNonEmpty row ["LastName", "last_name", "Last Name", "lastname"] = none →
       truthy (rowGet row "Name") = false →
        getField2 d "name" "first" = none ∧ getField2 d "name" "last" = none)) := by
  refine ⟨getChain_of_firstNonEmpty_some, truthy_getChain_of_firstNonEmpty_none, ?_⟩
  intro row f now d h
  obtain ⟨a, b, hfl, hd⟩ := normalize_record_shape row f now d h
  subst hd
  refine ⟨?_, ?_, ?_, ?_, ?_, ?_, ?_, ?_, ?_, ?_, ?_, ?_, ?_, ?_, ?_⟩
  · intro hn
    have hc := truthy_getChain_of_firstNonEmpty_none row _ hn
    apply getField_record_top a b row f now "patient_id"
      (strFieldPlain (getChain row ["PatientID", "patient_id", "id", "ID"])) rfl
    rw [strFieldPlain_null hc]
    rfl
  · intro hn
    have hc := truthy_getChain_of_firstNonEmpty_none row _ hn
    apply getField_record_top a b row f now "gender"
      (strFieldTitle (getChain row ["Gender", "sex"])) rfl
    rw [strFieldTitle_null hc]
    rfl
  · intro hn
    have hc := truthy_getChain_of_firstNonEmpty_none row _ hn
    apply getField_record_top a b row f now "dob"
      (parse_date (getChain row ["DateOfBirth", "dob", "Date of Birth"])) rfl
    rw [parse_date_null hc]
    rfl
  · intro hn
    have hc := truthy_getChain_of_firstNonEmpty_none row _ hn
    apply getField_record_top a b row f now "age"
      (intValue (to_int_safe (getChain row ["Age", "age"]))) rfl
    rw [to_int_safe_none_of_falsy hc]
    rfl
  · intro hn
    have hc := truthy_getChain_of_firstNonEmpty_none row _ hn
    apply getField2_record a b row f now "admission"
      [("date", parse_date (getChain row ["DateOfAdmission", "admission_date", "Date of Admission"])),
       ("hospital", strFieldTitle (getChain row ["Hospital", "hospital"])),
       ("doctor", strFieldTitle (getChain row ["Doctor", "doctor"]))]
      rfl rfl (by simp) "date"
      (parse_date (getChain row ["DateOfAdmission", "admission_date", "Date of Admission"])) rfl
    rw [parse_date_null hc]
    rfl
  · intro hn
    have hc := truthy_getChain_of_firstNonEmpty_none row _ hn
    apply getField2_record a b row f now "admission"
      [("date", parse_date (getChain row ["DateOfAdmission", "admission_date", "Date of Admission"])),
       ("hospital", strFieldTitle (getChain row ["Hospital", "hospital"])),
       ("doctor", strFieldTitle (getChain row ["Doctor", "doctor"]))]
      rfl rfl (by simp) "hospital"
      (strFieldTitle (getChain row ["Hospital", "hospital"])) rfl
    rw [strFieldTitle_null hc]
    rfl
  · intro hn
    have hc := truthy_getChain_of_firstNonEmpty_none row _ hn
    apply getField2_record a b row f now "admission"
      [("date", parse_date (getChain row ["DateOfAdmission", "admission_date", "Date of Admission"])),
       ("hospital", strFieldTitle (getChain row ["Hospital", "hospital"])),
       ("doctor", strFieldTitle (getChain row ["Doctor", "doctor"]))]
      rfl rfl (by simp) "doctor"
      (strFieldTitle (getChain row ["Doctor", "doctor"])) rfl
    rw [strFieldTitle_null hc]
    rfl
  · intro hn
    have hc := truthy_getChain_of_firstNonEmpty_none row _ hn
    apply getField_record_top a b row f now "medical_condition"
      (strFieldTitle (getChain row
        ["MedicalCondition", "Medical Condition", "Condition", "medical_condition"])) rfl
    rw [strFieldTitle_null hc]
    rfl
  · intro hn
    have hc := truthy_getChain_of_firstNonEmpty_none row _ hn
    apply getField_record_top a b row f now "medications"
      (.vList ((parse_medications
        (getChain row ["Medications", "Medication", "medications"])).map medValue)) rfl
    rw [parse_medications_nil hc]
    rfl
  · intro hn
    have hc := truthy_getChain_of_firstNonEmpty_none row _ hn
    apply getField_record_top a b row f now "allergies"
      (allergiesValue (getChain row ["Allergies", "allergies"])) rfl
    rw [allergiesValue_nil hc]
    rfl
  · intro hn
    have hc := truthy_getChain_of_firstNonEmpty_none row _ hn
    apply getField2_record a b row f now "address"
      [("city", strFieldTitle (getChain row ["Address_City", "City"])),
       ("state", strFieldUpper (getChain row ["Address_State", "State"])),
       ("zip", strFieldPlain (getChain row ["Address_Zip", "Zip", "PostalCode"])),
       ("country", strFieldTitle (getChain row ["Country", "country"]))]
      rfl rfl (by simp) "city"
      (strFieldTitle (getChain row ["Address_City", "City"])) rfl
    rw [strFieldTitle_null hc]
    rfl
  · intro hn
    have hc := truthy_getChain_of_firstNonEmpty_none row _ hn
    apply getField2_record a b row f now "address"
      [("city", strFieldTitle (getChain row ["Address_City", "City"])),
       ("state", strFieldUpper (getChain row ["Address_State", "State"])),
       ("zip", strFieldPlain (getChain row ["Address_Zip", "Zip", "PostalCode"])),
       ("country", strFieldTitle (getChain row ["Country", "country"]))]
      rfl rfl (by simp) "state"
      (strFieldUpper (getChain row ["Address_State", "State"])) rfl
    rw [strFieldUpper_null hc]
    rfl
  · intro hn
    have hc := truthy_getChain_of_firstNonEmpty_none row _ hn
    apply getField2_record a b row f now "address"
      [("city", strFieldTitle (getChain row ["Address_City", "City"])),
       ("state", strFieldUpper (getChain row ["Address_State", "State"])),
       ("zip", strFieldPlain (getChain row ["Address_Zip", "Zip", "PostalCode"])),
       ("country", strFieldTitle (getChain row ["Country", "country"]))]
      rfl rfl (by simp) "zip"
      (strFieldPlain (getChain row ["Address_Zip", "Zip", "PostalCode"])) rfl
    rw [strFieldPlain_null hc]
    rfl
  · intro hn
    have hc := truthy_getChain_of_firstNonEmpty_none row _ hn
    apply getField2_record a b row f now "address"
      [("city", strFieldTitle (getChain row ["Address_City", "City"])),
       ("state", strFieldUpper (getChain row ["Address_State", "State"])),
       ("zip", strFieldPlain (getChain row ["Address_Zip", "Zip", "PostalCode"])),
       ("country", strFieldTitle (getChain row ["Country", "country"]))]
      rfl rfl (by simp) "country"
      (strFieldTitle (getChain row ["Country", "country"])) rfl
    rw [strFieldTitle_null hc]
    rfl
  · intro hfn hln hname
    have hres := resolveFirstLast_no_name row hname
    rw [hfl] at hres
    injection hres with hres'
    injection hres' with ha hb
    have ha' : strFieldTitle a = .vNull := by
      rw [ha]
      exact strFieldTitle_null (truthy_getChain_of_firstNonEmpty_none row _ hfn)
    have hb' : strFieldTitle b = .vNull := by
      rw [hb]
      exact strFieldTitle_null (truthy_getChain_of_firstNonEmpty_none row _ hln)
    have hlook : lookupKV (recordKVs a b row f now) "name" =
        some (.vDict [("first", strFieldTitle a), ("last", strFieldTitle b)]) := rfl
    rw [ha', hb'] at hlook
    constructor
    · exact getField2_record a b row f now "name" _ hlook rfl (by simp) "first" _ rfl rfl
    · exact getField2_record a b row f now "name" _ hlook rfl (by simp) "last" _ rfl rfl

/-- C6 witness: on the empty row every alias chain is empty and the
canonical fields are absent. -/
theorem C6_witness :
    getField (.vDict [("name", .vDict []), ("admission", .vDict []),
      ("address", .vDict []),
      ("source_file", .vStr "f.csv"), ("ingested_at", .vTime 0)]) "patient_id" = none ∧
    getField2 (.vDict [("name", .vDict []), ("admission", .vDict []),
      ("address", .vDict []),
      ("source_file", .vStr "f.csv"), ("ingested_at", .vTime 0)]) "admission" "date" = none := by
  have h := C6_alias_resolution.2.2 [] "f.csv" 0
    (.vDict [("name", .vDict []), ("admission", .vDict []),
      ("address", .vDict []),
      ("source_file", .vStr "f.csv"), ("ingested_at", .vTime 0)]) rfl
  exact ⟨h.1 rfl, h.2.2.2.2.1 rfl⟩

theorem trimChars_nil_iff (l : List Char) :
    trimChars l = [] ↔ ∀ c ∈ l, c.isWhitespace = true := by
  unfold trimChars dropLeftWs
  rw [List.reverse_eq_nil_iff, List.dropWhile_eq_nil_iff]
  constructor
  · intro h c hc
    have hsplit : c ∈ l.takeWhile Char.isWhitespace ++ l.dropWhile Char.isWhitespace := by
      rw [List.takeWhile_append_dropWhile]
      exact hc
    rcases List.mem_append.mp hsplit with h1 | h1
    · exact List.mem_takeWhile_imp h1
    · exact h c (List.mem_reverse.mpr h1)
  · intro h c hc
    exact h c ((List.dropWhile_sublist _).subset (List.mem_reverse.mp hc))

theorem pyStrip_empty_iff (s : String) : pyStrip s = "" ↔ trimChars s.data = [] := by
  constructor
  · intro h
    have := congrArg String.data h
    simpa [pyStrip] using this
  · intro h
    rw [pyStrip, h]

theorem splitChars_ne_nil (p : Char → Bool) : ∀ l : List Char, splitChars p l ≠ [] := by
  intro l
  cases l with
  | nil => simp [splitChars]
  | cons c cs =>
    simp only [splitChars]
    by_cases hc : p c = true
    · simp [hc]
    · simp only [hc, Bool.false_eq_true, if_false]
      cases hsc : splitChars p cs <;> simp

theorem splitChars_append (p : Char → Bool) (c : Char) (hc : p c = true) :
    ∀ (a b : List Char), splitChars p (a ++ c :: b) = splitChars p a ++ splitChars p b := by
  intro a
  induction a with
  | nil =>
    intro b
    simp [splitChars, hc]
  | cons x xs ih =>
    intro b
    simp only [List.cons_append, splitChars, List.append_eq]
    rw [ih b]
    by_cases hx : p x = true
    · simp [hx]
    · simp only [hx, Bool.false_eq_true, if_false]
      cases hsx : splitChars p xs with
      | nil => exact absurd hsx (splitChars_ne_nil p xs)
      | cons t ts => rfl

theorem mem_of_mem_splitChars (p : Char → Bool) :
    ∀ (l piece : List Char), piece ∈ splitChars p l → ∀ c ∈ piece, c ∈ l := by
  intro l
  induction l with
  | nil =>
    intro piece hp c hc
    simp [splitChars] at hp
    subst hp
    cases hc
  | cons x xs ih =>
    intro piece hp c hc
    rw [splitChars] at hp
    by_cases hx : p x = true
    · rw [if_pos hx] at hp
      rcases List.mem_cons.mp hp with rfl | hp'
      · cases hc
      · exact List.mem_cons_of_mem _ (ih piece hp' c hc)
    · rw [if_neg hx] at hp
      cases hsx : splitChars p xs with
      | nil => exact absurd hsx (splitChars_ne_nil p xs)
      | cons t ts =>
        rw [hsx] at hp
        rcases List.mem_cons.mp hp with rfl | hp'
        · rcases List.mem_cons.mp hc with rfl | hc'
          · exact List.mem_cons_self _ _
          · exact List.mem_cons_of_mem _ (ih t (hsx ▸ List.mem_cons_self t ts) c hc')
        · exact List.mem_cons_of_mem _
            (ih piece (hsx ▸ List.mem_cons_of_mem t hp') c hc)

theorem medTokens_append : ∀ (ps qs : List String),
    medTokens (ps ++ qs) = medTokens ps ++ medTokens qs := by
  intro ps qs
  induction ps with
  | nil => rfl
  | cons q rest ih =>
    rw [List.cons_append, medTokens]
    conv_rhs => rw [medTokens]
    by_cases hq : pyStrip q = ""
    · simp only [hq, if_true]
      exact ih
    · simp only [hq, if_false]
      cases hm : medMatch (pyStrip q) <;> simp [ih]

theorem medTokens_nil_of_all_blank : ∀ (ps : List String),
    (∀ p ∈ ps, pyStrip p = "") → medTokens ps = [] := by
  intro ps h
  induction ps with
  | nil => rfl
  | cons q rest ih =>
    rw [medTokens]
    simp only [h q (by simp), if_true]
    exact ih (fun p hp => h p (List.mem_cons_of_mem _ hp))

theorem medTokens_split_nil_of_blank (s : String) (h : pyStrip s = "") :
    medTokens (pySplitDelims s) = [] := by
  apply medTokens_nil_of_all_blank
  intro piece hp
  rw [pySplitDelims] at hp
  obtain ⟨pl, hpl, rfl⟩ := List.mem_map.mp hp
  rw [pyStrip_empty_iff] at h ⊢
  rw [trimChars_nil_iff] at h ⊢
  intro c hc
  exact h c (mem_of_mem_splitChars isDelim s.data pl hpl c hc)

theorem pySplitDelims_append_bar (a b : String) :
    pySplitDelims (a ++ "|" ++ b) = pySplitDelims a ++ pySplitDelims b := by
  unfold pySplitDelims
  rw [String.data_append, String.data_append]
  have hbar : ("|" : String).data = ['|'] := rfl
  rw [hbar, List.append_assoc]
  have : (['|'] ++ b.data) = '|' :: b.data := rfl
  rw [this, splitChars_append isDelim '|' rfl, List.map_append]

theorem parse_medications_eq_medTokens (s : String) :
    parse_medications (some s) = medTokens (pySplitDelims s) := by
  rw [parse_medications]
  by_cases hs : pyStrip s = ""
  · rw [if_pos hs, medTokens_split_nil_of_blank s hs]
  · rw [if_neg hs]

theorem parse_medications_split_bar (a b : String) :
    parse_medications (some (a ++ "|" ++ b)) =
      parse_medications (some a) ++ parse_medications (some b) := by
  rw [parse_medications_eq_medTokens, parse_medications_eq_medTokens,
      parse_medications_eq_medTokens, pySplitDelims_append_bar, medTokens_append]

theorem medTokens_fallback_mem :
    ∀ (ps : List String) (p : String), p ∈ ps → pyStrip p ≠ "" →
    medMatch (pyStrip p) = none → (pyStrip p, none) ∈ medTokens ps := by
  intro ps
  induction ps with
  | nil => intro p hp; cases hp
  | cons q rest ih =>
    intro p hp hne hmm2
    rcases List.mem_cons.mp hp with rfl | hp'
    · rw [medTokens]
      simp only [hne, if_false, hmm2]
      exact List.mem_cons_self _ _
    · have hrec := ih p hp' hne hmm2
      rw [medTokens]
      by_cases hq : pyStrip q = ""
      · simp only [hq, if_true]
        exact hrec
      · simp only [hq, if_false]
        cases hm : medMatch (pyStrip q) <;> exact List.mem_cons_of_mem _ hrec

/-- C9.  Medication parsing splits on the three delimiters (splitting
around a `|` concatenation distributes over the parse), processes each
trimmed non-empty token, separates a leading name from a trailing
number-plus-unit dosage when the pattern matches, and on mismatch keeps
the whole trimmed token as the name with no dosage; the three
documented examples evaluate as stated. -/
theorem C9_medication_parse :
    parse_medications (some "Lipitor 10mg") = [("Lipitor", some "10mg")] ∧
    parse_medications (some "Aspirin") = [("Aspirin", none)] ∧
    parse_medications (some "Metformin 500 mg | Insulin") =
      [("Metformin", some "500 mg"), ("Insulin", none)] ∧
    (∀ a b : String, parse_medications (some (a ++ "|" ++ b)) =
      parse_medications (some a) ++ parse_medications (some b)) ∧
    (∀ (s p : String), p ∈ pySplitDelims s → pyStrip p ≠ "" →
      medMatch (pyStrip p) = none →
      (pyStrip p, none) ∈ parse_medications (some s)) := by
  refine ⟨rfl, rfl, rfl, parse_medications_split_bar, ?_⟩
  intro s p hp hne hmm2
  rw [parse_medications_eq_medTokens]
  exact medTokens_fallback_mem (pySplitDelims s) p hp hne hmm2

/-- C9 witness: a token the dosage pattern cannot match falls back to
name-only. -/
theorem C9_witness : (("Aspirin+", none) : String × Option String) ∈
    parse_medications (some "Aspirin+") :=
  C9_medication_parse.2.2.2.2 "Aspirin+" "Aspirin+" (by decide) (by decide) (by decide)

theorem not_ws_of_alpha {c : Char} (h : c.isAlpha = true) : c.isWhitespace = false := by
  rw [Char.isWhitespace]
  by_cases h1 : c = ' '
  · subst h1; exact absurd h (by decide)
  by_cases h2 : c = '\t'
  · subst h2; exact absurd h (by decide)
  by_cases h3 : c = '\r'
  · subst h3; exact absurd h (by decide)
  by_cases h4 : c = '\n'
  · subst h4; exact absurd h (by decide)
  simp [h1, h2, h3, h4]

theorem trimChars_cons_ne_nil {c : Char} (hc : c.isWhitespace = false) (l : List Char) :
    trimChars (c :: l) ≠ [] := by
  rw [Ne, trimChars_nil_iff]
  intro hall
  have := hall c (by simp)
  rw [hc] at this
  cases this

theorem mk_trim_cons_ne_empty {c : Char} (hc : c.isWhitespace = false) (l : List Char) :
    String.mk (trimChars (c :: l)) ≠ "" := by
  intro h
  exact trimChars_cons_ne_nil hc l (by simpa using congrArg String.data h)

theorem medGo_name_ne_empty :
    ∀ (rest acc pre : List Char) (c0 : Char),
    acc = pre ++ [c0] → c0.isAlpha = true →
    ∀ (n : String) (dd : Option String), medGo acc rest = some (n, dd) → n ≠ "" := by
  intro rest
  induction rest with
  | nil =>
    intro acc pre c0 hacc hc0 n dd h
    rw [medGo] at h
    cases h
  | cons c rest' ih =>
    intro acc pre c0 hacc hc0 n dd h
    rw [medGo] at h
    by_cases hnc : isNameChar c = true
    · simp only [hnc, Bool.not_true, Bool.false_eq_true, if_false] at h
      have hrev : (c :: acc).reverse = c0 :: (pre.reverse ++ [c]) := by
        rw [List.reverse_cons, hacc, List.reverse_append]
        simp
      by_cases hre : rest'.isEmpty = true
      · rw [if_pos hre] at h
        injection h with h1
        injection h1 with hn hdd
        rw [← hn, hrev]
        exact mk_trim_cons_ne_empty (not_ws_of_alpha hc0) _
      · rw [if_neg hre] at h
        cases hpd : parseDosageRest rest' with
        | some g2 =>
          rw [hpd] at h
          injection h with h1
          injection h1 with hn hdd
          rw [← hn, hrev]
          exact mk_trim_cons_ne_empty (not_ws_of_alpha hc0) _
        | none =>
          rw [hpd] at h
          exact ih (c :: acc) (c :: pre) c0 (by rw [hacc]; rfl) hc0 n dd h
    · have hf : isNameChar c = false := Bool.of_not_eq_true hnc
      rw [hf] at h
      simp only [Bool.not_false, if_true] at h
      cases h

theorem medMatch_name_ne_empty (p n : String) (dd : Option String)
    (h : medMatch p = some (n, dd)) : n ≠ "" := by
  rw [medMatch] at h
  cases hd : p.data with
  | nil => rw [hd] at h; cases h
  | cons c cs =>
    rw [hd] at h
    dsimp only at h
    by_cases hc : c.isAlpha = true
    · rw [if_pos hc] at h
      exact medGo_name_ne_empty cs [c] [] c rfl hc n dd h
    · rw [if_neg hc] at h
      cases h

theorem medTokens_names_ne_empty :
    ∀ (ps : List String) (e : String × Option String), e ∈ medTokens ps → e.1 ≠ "" := by
  intro ps
  induction ps with
  | nil => intro e he; cases he
  | cons q rest ih =>
    intro e he
    rw [medTokens] at he
    by_cases hq : pyStrip q = ""
    · simp only [hq, if_true] at he
      exact ih e he
    · simp only [hq, if_false] at he
      cases hm : medMatch (pyStrip q) with
      | some nd =>
        rw [hm] at he
        rcases List.mem_cons.mp he with rfl | he'
        · exact medMatch_name_ne_empty (pyStrip q) e.1 e.2 (by rw [hm])
        · exact ih e he'
      | none =>
        rw [hm] at he
        rcases List.mem_cons.mp he with rfl | he'
        · exact hq
        · exact ih e he'

theorem parse_medications_names_ne_empty (v : Option String)
    (e : String × Option String) (he : e ∈ parse_medications v) : e.1 ≠ "" := by
  cases v with
  | none => cases he
  | some s =>
    rw [parse_medications_eq_medTokens] at he
    exact medTokens_names_ne_empty _ e he

/-- The per-entry effect of `prune` on a parsed medication list: the
always-present name survives, a `None` dosage is removed, a present
dosage is kept. -/
theorem pruneList_medValues :
    ∀ (ms : List (String × Option String)),
    pruneList (ms.map medValue) = ms.map (fun e =>
      Value.vDict (("name", Value.vStr e.1) ::
        (match e.2 with
         | some g => [("dosage", Value.vStr g)]
         | none => []))) := by
  intro ms
  induction ms with
  | nil => rfl
  | cons m rest ih =>
    obtain ⟨n, dd⟩ := m
    rw [List.map_cons, List.map_cons]
    cases dd with
    | none =>
      have hstep : pruneList (medValue (n, none) :: rest.map medValue) =
          Value.vDict [("name", Value.vStr n)] :: pruneList (rest.map medValue) := rfl
      rw [hstep, ih]
    | some g =>
      have hstep : pruneList (medValue (n, some g) :: rest.map medValue) =
          Value.vDict [("name", Value.vStr n), ("dosage", Value.vStr g)] ::
            pruneList (rest.map medValue) := rfl
      rw [hstep, ih]

/-- C10.  Every entry produced by the medication parser has a non-empty
name (the matched name group starts with a letter; the fallback name is
the non-empty trimmed token), and pruning the entry list keeps every
entry as a mapping with its `name` and drops exactly the `None`
dosages: after pruning, an entry carries a `dosage` key iff the dosage
pattern matched for its token. -/
theorem C10_medication_invariant :
    ∀ (v : Option String),
    (∀ e ∈ parse_medications v, e.1 ≠ "") ∧
    prune (.vList ((parse_medications v).map medValue)) =
      .vList ((parse_medications v).map (fun e =>
        Value.vDict (("name", Value.vStr e.1) ::
          (match e.2 with
           | some g => [("dosage", Value.vStr g)]
           | none => [])))) := by
  intro v
  refine ⟨fun e he => parse_medications_names_ne_empty v e he, ?_⟩
  rw [prune, pruneList_medValues]

/-- C10 witness: a matched entry keeps its dosage, a fallback entry's
name is non-empty. -/
theorem C10_witness :
    prune (.vList ((parse_medications (some "Aspirin")).map medValue)) =
      .vList [.vDict [("name", .vStr "Aspirin")]] :=
  (C10_medication_invariant (some "Aspirin")).2
